import Mathlib

/-!
Verification of the Fine Offset WH55 water-leak sensor decoder
(src/src/devices/fineoffset_wh55.c and src/unnamed/part_000, function
fineoffset_wh55_decode) against its natural-language specification.

The decoder consumes a bit buffer produced by the radio front end, gates on
the first row's bit length, searches for the 24-bit sync pattern 0xAA2DD4,
extracts a 10-byte frame at the bit offset just after the match, checks the
family byte, validates CRC-8 (poly 0x31, init 0x00) and an additive
checksum, and maps the validated bytes to an output record.

Machine bytes are modelled as Nat with explicit reduction modulo 256 where
the C code's uint8_t truncates.  The single C float computation
(battery_bars * 0.2f) is modelled as the exact rational battery_bars * 1/5;
for the nibble range 0..15 the displayed one-decimal value of the float and
the rational agree.
-/

set_option maxRecDepth 100000

namespace WH55

/-- A byte rendered as its 8 bits, most significant bit first. -/
def byteToBits (n : Nat) : List Bool :=
  (List.range 8).map (fun i => n.testBit (7 - i))

/-- A byte list rendered as a bit stream, each byte MSB first. -/
def bytesToBits (bs : List Nat) : List Bool :=
  (bs.map byteToBits).flatten

/-- Value of a bit list read most significant bit first. -/
def bitsToNat (bits : List Bool) : Nat :=
  bits.foldl (fun acc bd => 2 * acc + (if bd then 1 else 0)) 0

/-- Modelled from the spec: the raw transmission handed to the decoder.
The C bitbuffer_t (defined outside src/) is a sequence of bit rows; the
decoder reads only row 0.  A row is its ordered bits, so the row's bit
length is the list length (bits_per_row in C). -/
structure bitbuffer_t where
  rows : List (List Bool)
deriving DecidableEq

/-- Bit length of one row; 0 for an absent row, as in the zero-initialised
C bits_per_row array. -/
def bits_per_row (bitbuffer : bitbuffer_t) (row : Nat) : Nat :=
  (bitbuffer.rows.getD row []).length

/-- Whether the pattern occurs in the row starting at bit position pos. -/
def bitsMatchAt (row pat : List Bool) (pos : Nat) : Bool :=
  (List.range pat.length).all (fun i => row.getD (pos + i) false == pat.getD i false)

/-- Scan positions pos, pos+1, ... (fuel many) for the first match;
falls back to the row length when no position matches. -/
def searchAux (row pat : List Bool) : Nat → Nat → Nat
  | 0, _ => row.length
  | fuel + 1, pos => if bitsMatchAt row pat pos then pos else searchAux row pat fuel (pos + 1)

/-- Modelled from the spec: the external search primitive
(bitbuffer_search, not under src/).  It returns the bit offset of the
first full occurrence of the pattern at or after offset 0, or the row's
bit length as the no-match sentinel, an offset chosen so the caller's
truncation check also fires. -/
def bitbuffer_search (row pat : List Bool) : Nat :=
  if pat.length ≤ row.length then searchAux row pat (row.length + 1 - pat.length) 0
  else row.length

/-- One byte read from the row at an arbitrary bit offset, MSB first;
bits past the end of the row read as 0. -/
def extractByte (row : List Bool) (off : Nat) : Nat :=
  bitsToNat ((List.range 8).map (fun i => row.getD (off + i) false))

/-- Modelled from the spec: the external extraction primitive
(bitbuffer_extract_bytes, not under src/): copies numBytes bytes starting
at an arbitrary bit offset, repacking across byte boundaries. -/
def bitbuffer_extract_bytes (row : List Bool) (off numBytes : Nat) : List Nat :=
  (List.range numBytes).map (fun k => extractByte row (off + 8 * k))

/-- One shift step of the MSB-first CRC-8 register. -/
def crcBit (poly r : Nat) : Nat :=
  if r.testBit 7 then ((r <<< 1) ^^^ poly) % 256 else (r <<< 1) % 256

/-- One byte of the CRC-8: xor the byte into the register, then shift
eight times. -/
def crcByte (poly r byte : Nat) : Nat :=
  crcBit poly (crcBit poly (crcBit poly (crcBit poly
    (crcBit poly (crcBit poly (crcBit poly (crcBit poly ((r ^^^ byte) % 256))))))))

/-- Modelled from the spec: the external CRC-8 primitive (crc8, not under
src/), MSB-first with configurable polynomial and initial value. -/
def crc8 (msg : List Nat) (poly init : Nat) : Nat :=
  msg.foldl (crcByte poly) init

/-- Modelled from the spec: the external additive checksum primitive
(add_bytes, not under src/): sum of the bytes modulo 256. -/
def add_bytes (msg : List Nat) : Nat :=
  (msg.foldl (fun a b => a + b) 0) % 256

/-- Lower bound of the accepted bit-length window (MIN_LEN in the source). -/
def MIN_LEN : Nat := 150

/-- Upper bound of the accepted bit-length window (MAX_LEN in the source). -/
def MAX_LEN : Nat := 220

/-- The 24-bit sync pattern 0xAA 0x2D 0xD4 (preamble in the source). -/
def preamble : List Bool := bytesToBits [0xaa, 0x2d, 0xd4]

/-- The output record built by data_make in the source.  Field names follow
the output schema; battery_ok carries the exact rational standing for the C
float battery_bars * 0.2f. -/
structure DecodedReading where
  model : String
  id : Nat
  channel : Nat
  battery_ok : Rat
  alarm : Nat
  unknown1 : Nat
  unknown2 : Nat
  mic : String
deriving DecidableEq

/-- Result of one decode call: the C return codes, with success carrying
the record passed to decoder_output_data. -/
inductive DecodeResult where
  | DECODE_ABORT_LENGTH : DecodeResult
  | DECODE_ABORT_EARLY : DecodeResult
  | DECODE_FAIL_MIC : DecodeResult
  | success : DecodedReading → DecodeResult
deriving DecidableEq

/-- Tail of fineoffset_wh55_decode from the family check on: family byte,
CRC and checksum validation, then field decode, exactly as in the source. -/
def decode_frame (b : List Nat) : DecodeResult :=
  if b.getD 0 0 ≠ 0x55 then DecodeResult.DECODE_ABORT_EARLY
  else
    let crc := crc8 (b.take 8) 0x31 0x00
    let chk := add_bytes (b.take 9)
    if crc ≠ b.getD 8 0 ∨ chk ≠ b.getD 9 0 then DecodeResult.DECODE_FAIL_MIC
    else
      DecodeResult.success
        { model := "Fineoffset-wh55"
          id := ((b.getD 1 0 &&& 0x0F) <<< 16) ||| ((b.getD 2 0) <<< 8) ||| b.getD 3 0
          channel := (b.getD 1 0 >>> 4) + 1
          battery_ok := mkRat (Int.ofNat (b.getD 4 0 &&& 0x0F)) 5
          alarm := if b.getD 5 0 &&& 0x02 = 0 then 1 else 0
          unknown1 := ((b.getD 4 0) <<< 8) ||| b.getD 5 0
          unknown2 := ((b.getD 6 0) <<< 8) ||| b.getD 7 0
          mic := "CRC" }

/-- fineoffset_wh55_decode: length gate on row 0, sync search, truncation
guard, extraction of 10 bytes, then decode_frame. -/
def fineoffset_wh55_decode (bitbuffer : bitbuffer_t) : DecodeResult :=
  let row := bitbuffer.rows.getD 0 []
  if row.length < MIN_LEN ∨ MAX_LEN < row.length then DecodeResult.DECODE_ABORT_LENGTH
  else
    let bit_offset := bitbuffer_search row preamble + 24
    if bit_offset + 10 * 8 > row.length then DecodeResult.DECODE_ABORT_LENGTH
    else decode_frame (bitbuffer_extract_bytes row bit_offset 10)

/-- A transmission carrying one frame: the sync pattern, the frame bytes,
then zero padding up to the 150-bit minimum. -/
def mkTx (b : List Nat) : bitbuffer_t :=
  ⟨[preamble ++ bytesToBits b ++ List.replicate 46 false]⟩

/-- Frame bytes of the first sample capture in the source comments
(channel 1): 55 0 107a4 05 02 df be a4 49. -/
def frameA : List Nat := [0x55, 0x01, 0x07, 0xa4, 0x05, 0x02, 0xdf, 0xbe, 0xa4, 0x49]

/-- frameA with its family byte corrupted to 0x56. -/
def frameX : List Nat := [0x56, 0x01, 0x07, 0xa4, 0x05, 0x02, 0xdf, 0xbe, 0xa4, 0x49]

/-- A frame like frameA but with battery nibble 6 (external power),
with recomputed CRC and checksum bytes. -/
def frameB6 : List Nat := [0x55, 0x01, 0x07, 0xa4, 0x06, 0x02, 0xdf, 0xbe, 0x38, 0xde]

/-- The record produced for frameA. -/
def readingA : DecodedReading :=
  { model := "Fineoffset-wh55", id := 0x107a4, channel := 1, battery_ok := 1,
    alarm := 0, unknown1 := 0x0502, unknown2 := 0xdfbe, mic := "CRC" }

/-- The record produced for frameB6; battery_ok is 6/5, above 1. -/
def readingB6 : DecodedReading :=
  { model := "Fineoffset-wh55", id := 0x107a4, channel := 1, battery_ok := mkRat 6 5,
    alarm := 0, unknown1 := 0x0602, unknown2 := 0xdfbe, mic := "CRC" }

/-! Structural lemmas about the bit-level primitives. -/

lemma length_byteToBits (n : Nat) : (byteToBits n).length = 8 := by
  simp [byteToBits]

lemma length_bytesToBits (bs : List Nat) : (bytesToBits bs).length = 8 * bs.length := by
  induction bs with
  | nil => simp [bytesToBits]
  | cons x xs ih =>
      simp only [bytesToBits, List.map_cons, List.flatten_cons, List.length_append,
        length_byteToBits, List.length_cons] at ih ⊢
      omega

lemma bytesToBits_cons (x : Nat) (xs : List Nat) :
    bytesToBits (x :: xs) = byteToBits x ++ bytesToBits xs := by
  simp [bytesToBits]

lemma mkTx_row (b : List Nat) :
    (mkTx b).rows.getD 0 [] = preamble ++ (bytesToBits b ++ List.replicate 46 false) := by
  simp [mkTx]

lemma preamble_length : preamble.length = 24 := by decide

lemma mkTx_row_length (b : List Nat) (hlen : b.length = 10) :
    ((mkTx b).rows.getD 0 []).length = 150 := by
  rw [mkTx_row, List.length_append, List.length_append, length_bytesToBits,
    preamble_length, hlen, List.length_replicate]

/-- Reading every position of a list back with getD reproduces the list. -/
lemma map_range_getD {α : Type} (l : List α) (d : α) :
    (List.range l.length).map (fun i => l.getD i d) = l := by
  induction l with
  | nil => simp
  | cons x xs ih =>
      rw [List.length_cons, List.range_succ_eq_map, List.map_cons, List.map_map]
      simp only [List.getD_cons_zero, List.getD_cons_succ, Function.comp]
      exact congrArg (x :: ·) ih

/-- The sync pattern matches at offset 0 of any row that starts with it. -/
lemma bitsMatchAt_preamble_zero (rest : List Bool) :
    bitsMatchAt (preamble ++ rest) preamble 0 = true := by
  rw [bitsMatchAt, List.all_eq_true]
  intro i hi
  rw [List.mem_range, preamble_length] at hi
  rw [Nat.zero_add, beq_iff_eq, List.getD_append]
  rw [preamble_length]; exact hi

/-- On a row that starts with the sync pattern, the search returns offset 0. -/
lemma bitbuffer_search_self (rest : List Bool) :
    bitbuffer_search (preamble ++ rest) preamble = 0 := by
  rw [bitbuffer_search, if_pos (by simp)]
  have h : ∃ f, (preamble ++ rest).length + 1 - preamble.length = f + 1 := by
    refine ⟨(preamble ++ rest).length - preamble.length, ?_⟩
    have := List.length_append preamble rest
    omega
  obtain ⟨f, hf⟩ := h
  rw [hf, searchAux, if_pos (bitsMatchAt_preamble_zero rest)]

/-- Reading back an 8-bit rendering gives the byte, for bytes below 256. -/
lemma bitsToNat_byteToBits (x : Nat) (hx : x < 256) : bitsToNat (byteToBits x) = x := by
  have h : ∀ y : Fin 256, bitsToNat (byteToBits y.val) = y.val := by decide
  exact h ⟨x, hx⟩

/-- Extraction is insensitive to a prefix of the row, shifting the offset. -/
lemma extractByte_append (pre rest : List Bool) (j : Nat) :
    extractByte (pre ++ rest) (pre.length + j) = extractByte rest j := by
  unfold extractByte
  congr 1
  apply List.map_congr_left
  intro i _
  rw [show pre.length + j + i = pre.length + (j + i) by omega,
    List.getD_append_right pre rest false (pre.length + (j + i)) (by omega)]
  congr 1
  omega

/-- Extracting at offset 0 of an 8-bit prefix reads off that prefix. -/
lemma extractByte_zero (l rest : List Bool) (h : l.length = 8) :
    extractByte (l ++ rest) 0 = bitsToNat l := by
  unfold extractByte
  congr 1
  rw [← h]
  calc (List.range l.length).map (fun i => (l ++ rest).getD (0 + i) false)
      = (List.range l.length).map (fun i => l.getD i false) := by
        apply List.map_congr_left
        intro i hi
        rw [List.mem_range] at hi
        rw [Nat.zero_add, List.getD_append _ _ _ _ hi]
    _ = l := map_range_getD l false

/-- Byte k of the bit rendering of a byte list is byte k of the list. -/
lemma extract_bytesToBits (bs : List Nat) (pad : List Bool) (hlt : ∀ x ∈ bs, x < 256) :
    ∀ k, k < bs.length → extractByte (bytesToBits bs ++ pad) (8 * k) = bs.getD k 0 := by
  induction bs generalizing pad with
  | nil => intro k hk; simp at hk
  | cons x xs ih =>
      intro k hk
      rw [bytesToBits_cons, List.append_assoc]
      cases k with
      | zero =>
          rw [Nat.mul_zero, extractByte_zero (byteToBits x) _ (length_byteToBits x),
            List.getD_cons_zero]
          exact bitsToNat_byteToBits x (hlt x (List.mem_cons_self x xs))
      | succ n =>
          have h8 : 8 * (n + 1) = (byteToBits x).length + 8 * n := by
            rw [length_byteToBits]; omega
          rw [h8, extractByte_append, List.getD_cons_succ]
          refine ih _ (fun y hy => hlt y (List.mem_cons_of_mem x hy)) n ?_
          simp only [List.length_cons] at hk
          omega

/-- Extracting the 10 frame bytes back out of a constructed transmission. -/
lemma extract_mkTx (b : List Nat) (hlen : b.length = 10) (hlt : ∀ x ∈ b, x < 256) :
    bitbuffer_extract_bytes ((mkTx b).rows.getD 0 []) 24 10 = b := by
  rw [mkTx_row]
  unfold bitbuffer_extract_bytes
  calc (List.range 10).map
        (fun k => extractByte (preamble ++ (bytesToBits b ++ List.replicate 46 false)) (24 + 8 * k))
      = (List.range 10).map (fun k => b.getD k 0) := by
        apply List.map_congr_left
        intro k hk
        rw [List.mem_range] at hk
        rw [show (24 : Nat) + 8 * k = preamble.length + 8 * k by rw [preamble_length],
          extractByte_append]
        exact extract_bytesToBits b _ hlt k (by omega)
    _ = b := by rw [show (10 : Nat) = b.length from hlen.symm]; exact map_range_getD b 0

/-- On a constructed transmission all gates up to extraction pass, and the
decode is the frame decode of the constructing bytes. -/
lemma decode_mkTx_eq (b : List Nat) (hlen : b.length = 10) (hlt : ∀ x ∈ b, x < 256) :
    fineoffset_wh55_decode (mkTx b) = decode_frame b := by
  have hL := mkTx_row_length b hlen
  have hsearch : bitbuffer_search ((mkTx b).rows.getD 0 []) preamble = 0 := by
    rw [mkTx_row]; exact bitbuffer_search_self _
  rw [fineoffset_wh55_decode]
  simp only [hL, hsearch]
  rw [if_neg (by decide), if_neg (by decide)]
  simp only [Nat.zero_add]
  rw [extract_mkTx b hlen hlt]

/-! CRC-8 algebra.  The shift step, hence the whole CRC with initial value
0, is linear over GF(2); together with the fact that every single-bit error
pattern has a nonzero CRC this gives single-bit error detection. -/

lemma xor_xor_comm (a b c d : Nat) :
    (a ^^^ b) ^^^ (c ^^^ d) = (a ^^^ c) ^^^ (b ^^^ d) := by
  rw [Nat.xor_assoc, ← Nat.xor_assoc b c d, Nat.xor_comm b c,
    Nat.xor_assoc c b d, ← Nat.xor_assoc a c (b ^^^ d)]

lemma xor_cancel_middle (x p y : Nat) : (x ^^^ p) ^^^ (y ^^^ p) = x ^^^ y := by
  rw [xor_xor_comm, Nat.xor_self, Nat.xor_zero]

lemma xor_shiftLeft_one (a b : Nat) : (a ^^^ b) <<< 1 = a <<< 1 ^^^ b <<< 1 := by
  apply Nat.eq_of_testBit_eq
  intro i
  simp only [Nat.testBit_shiftLeft, Nat.testBit_xor]
  cases decide (1 ≤ i) <;> simp

lemma mod256_xor (a b : Nat) : (a ^^^ b) % 256 = a % 256 ^^^ b % 256 := by
  have h : (256 : Nat) = 2 ^ 8 := by norm_num
  apply Nat.eq_of_testBit_eq
  intro i
  simp only [h, Nat.testBit_mod_two_pow, Nat.testBit_xor]
  cases decide (i < 8) <;> simp

/-- The CRC shift step is GF(2)-linear. -/
lemma crcBit_linear (poly a b : Nat) :
    crcBit poly (a ^^^ b) = crcBit poly a ^^^ crcBit poly b := by
  unfold crcBit
  rw [Nat.testBit_xor]
  cases ha : a.testBit 7 <;> cases hb : b.testBit 7 <;>
    simp only [Bool.false_xor, Bool.true_xor, Bool.xor_false, Bool.xor_true,
      Bool.not_false, Bool.not_true, Bool.false_eq_true, Bool.true_eq_false,
      if_true, if_false, ite_true, ite_false]
  · rw [xor_shiftLeft_one, mod256_xor]
  · rw [xor_shiftLeft_one, Nat.xor_assoc, mod256_xor]
  · rw [xor_shiftLeft_one, Nat.xor_comm (a <<< 1) (b <<< 1), Nat.xor_assoc,
      mod256_xor, Nat.xor_comm]
  · rw [← mod256_xor, xor_cancel_middle, xor_shiftLeft_one]

/-- The CRC byte step is GF(2)-bilinear in state and input byte. -/
lemma crcByte_linear (poly r1 r2 x y : Nat) :
    crcByte poly (r1 ^^^ r2) (x ^^^ y) = crcByte poly r1 x ^^^ crcByte poly r2 y := by
  unfold crcByte
  rw [xor_xor_comm, mod256_xor]
  simp only [crcBit_linear]

/-- Effect of injecting an error into the CRC state and then running n more
zero steps of the byte fold. -/
def crcErr : Nat → Nat → Nat
  | 0, d => d
  | n + 1, d => crcErr n (crcByte 0x31 d 0)

/-- An error xored into the CRC state propagates linearly through the rest
of the byte fold. -/
lemma crc8_state_xor (ys : List Nat) :
    ∀ s d : Nat, crc8 ys 0x31 (s ^^^ d) = crc8 ys 0x31 s ^^^ crcErr ys.length d := by
  induction ys with
  | nil => intro s d; rfl
  | cons y ys ih =>
      intro s d
      show crc8 ys 0x31 (crcByte 0x31 (s ^^^ d) y) = _
      rw [show crcByte 0x31 (s ^^^ d) y = crcByte 0x31 s y ^^^ crcByte 0x31 d 0 by
        rw [← crcByte_linear, Nat.xor_zero]]
      rw [ih]
      rfl

/-- Flipping the bits of mask m into byte i of the message changes the
CRC (initial value 0) by the propagated CRC of the error pattern. -/
lemma crc8_flip (xs : List Nat) :
    ∀ (i : Nat) (s m : Nat), i < xs.length →
      crc8 (xs.set i (xs.getD i 0 ^^^ m)) 0x31 s
        = crc8 xs 0x31 s ^^^ crcErr (xs.length - (i + 1)) (crcByte 0x31 0 m) := by
  induction xs with
  | nil => intro i s m hi; simp at hi
  | cons x xs ih =>
      intro i s m hi
      cases i with
      | zero =>
          rw [List.getD_cons_zero, List.set_cons_zero]
          show crc8 xs 0x31 (crcByte 0x31 s (x ^^^ m)) = _
          rw [show crcByte 0x31 s (x ^^^ m) = crcByte 0x31 s x ^^^ crcByte 0x31 0 m by
            rw [← crcByte_linear, Nat.xor_zero]]
          rw [crc8_state_xor]
          rfl
      | succ n =>
          rw [List.getD_cons_succ, List.set_cons_succ]
          show crc8 (xs.set n (xs.getD n 0 ^^^ m)) 0x31 (crcByte 0x31 s x) = _
          rw [ih n (crcByte 0x31 s x) m (by simpa using hi)]
          have hL : (x :: xs).length - (n + 1 + 1) = xs.length - (n + 1) := by
            simp only [List.length_cons]; omega
          rw [hL]
          rfl

/-- The propagated CRC of every single-bit error pattern is nonzero: this
is the single-bit error detection property of polynomial 0x31. -/
lemma crcErr_single_bit_ne_zero :
    ∀ p : Fin 8 × Fin 8, crcErr p.1.val (crcByte 0x31 0 (2 ^ p.2.val)) ≠ 0 := by
  decide

/-! getD bookkeeping for set and take. -/

lemma getD_set_ne (l : List Nat) (i k v : Nat) (h : i ≠ k) :
    (l.set i v).getD k 0 = l.getD k 0 := by
  simp [List.getD_eq_getElem?_getD, List.getElem?_set_ne h]

lemma getD_set_self (l : List Nat) (i v : Nat) (h : i < l.length) :
    (l.set i v).getD i 0 = v := by
  simp [List.getD_eq_getElem?_getD, List.getElem?_set_self h]

lemma getD_mem (l : List Nat) (i : Nat) (h : i < l.length) : l.getD i 0 ∈ l := by
  simp only [List.getD_eq_getElem?_getD, List.getElem?_eq_getElem h, Option.getD_some]
  exact List.getElem_mem h

/-! Shapes of the decode_frame result. -/

lemma decode_frame_early (b : List Nat) (h0 : b.getD 0 0 ≠ 0x55) :
    decode_frame b = DecodeResult.DECODE_ABORT_EARLY := by
  rw [decode_frame, if_pos h0]

lemma decode_frame_mic (b : List Nat) (h0 : b.getD 0 0 = 0x55)
    (h : crc8 (b.take 8) 0x31 0x00 ≠ b.getD 8 0 ∨ add_bytes (b.take 9) ≠ b.getD 9 0) :
    decode_frame b = DecodeResult.DECODE_FAIL_MIC := by
  simp only [decode_frame]
  rw [if_neg (fun hh => hh h0), if_pos h]

/-- The record decode_frame builds from a frame that passes all checks. -/
def frameReading (b : List Nat) : DecodedReading :=
  { model := "Fineoffset-wh55"
    id := ((b.getD 1 0 &&& 0x0F) <<< 16) ||| ((b.getD 2 0) <<< 8) ||| b.getD 3 0
    channel := (b.getD 1 0 >>> 4) + 1
    battery_ok := mkRat (Int.ofNat (b.getD 4 0 &&& 0x0F)) 5
    alarm := if b.getD 5 0 &&& 0x02 = 0 then 1 else 0
    unknown1 := ((b.getD 4 0) <<< 8) ||| b.getD 5 0
    unknown2 := ((b.getD 6 0) <<< 8) ||| b.getD 7 0
    mic := "CRC" }

lemma decode_frame_success_eq (b : List Nat) (h0 : b.getD 0 0 = 0x55)
    (hcrc : crc8 (b.take 8) 0x31 0x00 = b.getD 8 0)
    (hchk : add_bytes (b.take 9) = b.getD 9 0) :
    decode_frame b = DecodeResult.success (frameReading b) := by
  simp only [decode_frame, frameReading]
  rw [if_neg (fun hh => hh h0), if_neg (by push_neg; exact ⟨hcrc, hchk⟩)]

lemma decode_frame_success_facts (b : List Nat) (r : DecodedReading)
    (h : decode_frame b = DecodeResult.success r) :
    b.getD 0 0 = 0x55 ∧ crc8 (b.take 8) 0x31 0x00 = b.getD 8 0 ∧
      add_bytes (b.take 9) = b.getD 9 0 := by
  by_cases h0 : b.getD 0 0 = 0x55
  · by_cases hc : crc8 (b.take 8) 0x31 0x00 = b.getD 8 0
    · by_cases hk : add_bytes (b.take 9) = b.getD 9 0
      · exact ⟨h0, hc, hk⟩
      · rw [decode_frame_mic b h0 (Or.inr hk)] at h
        exact DecodeResult.noConfusion h
    · rw [decode_frame_mic b h0 (Or.inl hc)] at h
      exact DecodeResult.noConfusion h
  · rw [decode_frame_early b h0] at h
    exact DecodeResult.noConfusion h

lemma getD_take_of_lt (l : List Nat) (n i : Nat) (h : i < n) :
    (l.take n).getD i 0 = l.getD i 0 := by
  simp [List.getD_eq_getElem?_getD, List.getElem?_take_of_lt h]

/-- Packing a channel nibble and an id nibble into one byte and reading
them back. -/
lemma nibble_pack_facts : ∀ c i : Fin 16,
    ((c.val <<< 4) ||| i.val) &&& 0x0F = i.val ∧
    ((c.val <<< 4) ||| i.val) >>> 4 = c.val ∧
    ((c.val <<< 4) ||| i.val) < 256 := by
  decide

/-- Masking with 0x0F is the identity on nibbles. -/
lemma and_fifteen_eq_self : ∀ v : Fin 16, v.val &&& 0x0F = v.val := by
  decide

/-! The claims. -/

/-- C3: for every transmission whose first-row bit length L is outside the
window [150, 220], decode returns the length-gate failure
DECODE_ABORT_LENGTH regardless of the transmission's bit content. -/
theorem claim_C3 (bitbuffer : bitbuffer_t)
    (h : bits_per_row bitbuffer 0 < 150 ∨ 220 < bits_per_row bitbuffer 0) :
    fineoffset_wh55_decode bitbuffer = DecodeResult.DECODE_ABORT_LENGTH := by
  simp only [fineoffset_wh55_decode, MIN_LEN, MAX_LEN]
  rw [if_pos (by simp only [bits_per_row] at h; omega)]

theorem claim_C3_witness :
    bits_per_row ⟨[List.replicate 100 false]⟩ 0 < 150 ∧
    fineoffset_wh55_decode ⟨[List.replicate 100 false]⟩
      = DecodeResult.DECODE_ABORT_LENGTH :=
  ⟨by decide, claim_C3 ⟨[List.replicate 100 false]⟩ (Or.inl (by decide))⟩

/-- C9: decode is deterministic: two invocations on the same immutable bit
sequence yield identical results. -/
theorem claim_C9 (b1 b2 : bitbuffer_t) (h : b1 = b2) :
    fineoffset_wh55_decode b1 = fineoffset_wh55_decode b2 := by
  rw [h]

theorem claim_C9_witness :
    fineoffset_wh55_decode (mkTx frameA) = fineoffset_wh55_decode (mkTx frameA) :=
  claim_C9 (mkTx frameA) (mkTx frameA) rfl

/-- C10: the decode result depends only on row 0 of the bitbuffer: two
transmissions with identical first rows decode identically, whatever
further rows hold. -/
theorem claim_C10 (b1 b2 : bitbuffer_t)
    (h : b1.rows.getD 0 [] = b2.rows.getD 0 []) :
    fineoffset_wh55_decode b1 = fineoffset_wh55_decode b2 := by
  rw [fineoffset_wh55_decode, fineoffset_wh55_decode, h]

theorem claim_C10_witness :
    fineoffset_wh55_decode (mkTx frameA)
      = fineoffset_wh55_decode ⟨[(mkTx frameA).rows.getD 0 [], [true, true]]⟩ :=
  claim_C10 (mkTx frameA) ⟨[(mkTx frameA).rows.getD 0 [], [true, true]]⟩ rfl

/-- C5: a transmission that passes the length gate and the sync/truncation
guard but whose extracted frame does not start with the family byte 0x55
decodes to DECODE_ABORT_EARLY: no integrity validation or field decode is
reached. -/
theorem claim_C5 (bitbuffer : bitbuffer_t)
    (h1 : 150 ≤ bits_per_row bitbuffer 0) (h2 : bits_per_row bitbuffer 0 ≤ 220)
    (h3 : bitbuffer_search (bitbuffer.rows.getD 0 []) preamble + 24 + 80
      ≤ bits_per_row bitbuffer 0)
    (h4 : (bitbuffer_extract_bytes (bitbuffer.rows.getD 0 [])
        (bitbuffer_search (bitbuffer.rows.getD 0 []) preamble + 24) 10).getD 0 0 ≠ 0x55) :
    fineoffset_wh55_decode bitbuffer = DecodeResult.DECODE_ABORT_EARLY := by
  simp only [bits_per_row] at h1 h2 h3
  simp only [fineoffset_wh55_decode, MIN_LEN, MAX_LEN]
  rw [if_neg (by omega), if_neg (by omega)]
  exact decode_frame_early _ h4

theorem claim_C5_witness :
    (bitbuffer_extract_bytes ((mkTx frameX).rows.getD 0 [])
        (bitbuffer_search ((mkTx frameX).rows.getD 0 []) preamble + 24) 10).getD 0 0 ≠ 0x55 ∧
    fineoffset_wh55_decode (mkTx frameX) = DecodeResult.DECODE_ABORT_EARLY :=
  ⟨by decide, claim_C5 (mkTx frameX) (by decide) (by decide) (by decide) (by decide)⟩

/-- C1: for a transmission that passes the length gate, sync search and
family check, decode succeeds if and only if the CRC-8 (poly 0x31, init
0x00) of bytes 0..7 equals byte 8 and the byte sum of bytes 0..8 modulo
256 equals byte 9; when either comparison fails it returns
DECODE_FAIL_MIC and constructs no reading. -/
theorem claim_C1 (bitbuffer : bitbuffer_t) (b : List Nat)
    (h1 : 150 ≤ bits_per_row bitbuffer 0) (h2 : bits_per_row bitbuffer 0 ≤ 220)
    (h3 : bitbuffer_search (bitbuffer.rows.getD 0 []) preamble + 24 + 80
      ≤ bits_per_row bitbuffer 0)
    (hb : b = bitbuffer_extract_bytes (bitbuffer.rows.getD 0 [])
        (bitbuffer_search (bitbuffer.rows.getD 0 []) preamble + 24) 10)
    (h4 : b.getD 0 0 = 0x55) :
    ((∃ r, fineoffset_wh55_decode bitbuffer = DecodeResult.success r) ↔
      (crc8 (b.take 8) 0x31 0x00 = b.getD 8 0 ∧ add_bytes (b.take 9) = b.getD 9 0)) ∧
    (¬(crc8 (b.take 8) 0x31 0x00 = b.getD 8 0 ∧ add_bytes (b.take 9) = b.getD 9 0) →
      fineoffset_wh55_decode bitbuffer = DecodeResult.DECODE_FAIL_MIC) := by
  simp only [bits_per_row] at h1 h2 h3
  have hdec : fineoffset_wh55_decode bitbuffer = decode_frame b := by
    simp only [fineoffset_wh55_decode, MIN_LEN, MAX_LEN]
    rw [if_neg (by omega), if_neg (by omega), ← hb]
  constructor
  · constructor
    · rintro ⟨r, hr⟩
      rw [hdec] at hr
      obtain ⟨-, hc, hk⟩ := decode_frame_success_facts b r hr
      exact ⟨hc, hk⟩
    · rintro ⟨hc, hk⟩
      exact ⟨frameReading b, by rw [hdec]; exact decode_frame_success_eq b h4 hc hk⟩
  · intro hnot
    rw [hdec]
    refine decode_frame_mic b h4 ?_
    by_cases hc : crc8 (b.take 8) 0x31 0x00 = b.getD 8 0
    · exact Or.inr (fun hk => hnot ⟨hc, hk⟩)
    · exact Or.inl hc

theorem claim_C1_witness :
    ((∃ r, fineoffset_wh55_decode (mkTx frameA) = DecodeResult.success r) ↔
      (crc8 (frameA.take 8) 0x31 0x00 = frameA.getD 8 0 ∧
        add_bytes (frameA.take 9) = frameA.getD 9 0)) ∧
    (¬(crc8 (frameA.take 8) 0x31 0x00 = frameA.getD 8 0 ∧
        add_bytes (frameA.take 9) = frameA.getD 9 0) →
      fineoffset_wh55_decode (mkTx frameA) = DecodeResult.DECODE_FAIL_MIC) :=
  claim_C1 (mkTx frameA) frameA (by decide) (by decide) (by decide) (by decide) (by decide)

/-- C4 counterexample: a transmission whose sync pattern sits too close to
the end (length 154, sync found at offset 100, only 30 bits after it) and a
transmission rejected by the length gate (100 bits) both return the very
same failure value DECODE_ABORT_LENGTH, so the truncation failure is not a
failure kind distinct from the length gate's. -/
theorem claim_C4_counterexample :
    fineoffset_wh55_decode ⟨[List.replicate 100 false ++ preamble ++ List.replicate 30 false]⟩
        = DecodeResult.DECODE_ABORT_LENGTH ∧
    fineoffset_wh55_decode ⟨[List.replicate 100 false]⟩ = DecodeResult.DECODE_ABORT_LENGTH ∧
    fineoffset_wh55_decode ⟨[List.replicate 100 false ++ preamble ++ List.replicate 30 false]⟩
        = fineoffset_wh55_decode ⟨[List.replicate 100 false]⟩ := by
  refine ⟨by decide, by decide, by decide⟩

/-- C4 amended: for every transmission that passes the length gate, when
the sync search leaves fewer than 80 bits after the match (which also
covers a failed search, whose sentinel offset makes the same guard fire),
decode returns DECODE_ABORT_LENGTH — the same failure code as the length
gate, not a distinct one. -/
theorem claim_C4 (bitbuffer : bitbuffer_t)
    (h1 : 150 ≤ bits_per_row bitbuffer 0) (h2 : bits_per_row bitbuffer 0 ≤ 220)
    (h3 : bits_per_row bitbuffer 0
      < bitbuffer_search (bitbuffer.rows.getD 0 []) preamble + 24 + 80) :
    fineoffset_wh55_decode bitbuffer = DecodeResult.DECODE_ABORT_LENGTH := by
  simp only [bits_per_row] at h1 h2 h3
  simp only [fineoffset_wh55_decode, MIN_LEN, MAX_LEN]
  rw [if_neg (by omega), if_pos (by omega)]

theorem claim_C4_witness :
    bits_per_row ⟨[List.replicate 150 false]⟩ 0
        < bitbuffer_search ((⟨[List.replicate 150 false]⟩ : bitbuffer_t).rows.getD 0 []) preamble + 24 + 80 ∧
    fineoffset_wh55_decode ⟨[List.replicate 150 false]⟩ = DecodeResult.DECODE_ABORT_LENGTH :=
  ⟨by decide, claim_C4 ⟨[List.replicate 150 false]⟩ (by decide) (by decide) (by decide)⟩

/-- C8 counterexample: the decoder accepts the sample frame
55 01 07 a4 05 02 df be a4 49 and reports battery_ok = 1.0 (5 bars,
nibble 0x5 of byte 4), not 0.4 as the claim states. -/
theorem claim_C8_counterexample :
    fineoffset_wh55_decode (mkTx frameA) = DecodeResult.success readingA ∧
    readingA.battery_ok ≠ mkRat 2 5 :=
  ⟨by decide, by decide⟩

/-- C8 amended: for the transmission carrying the frame
55 01 07 a4 05 02 df be a4 49, decode succeeds (integrity passes) and
returns id = 0x107a4, channel = 1 and battery_ok = 1.0 (5 battery bars;
byte 4 is 0x05, so the low nibble is 5, not 2). -/
theorem claim_C8 :
    fineoffset_wh55_decode (mkTx frameA) = DecodeResult.success readingA ∧
    readingA.id = 0x107a4 ∧ readingA.channel = 1 ∧ readingA.battery_ok = 1 :=
  ⟨by decide, by decide, by decide, by decide⟩

/-- C6: every successfully decoded frame reports battery_ok as the low
nibble of byte 4 times 0.2 (exactly v/5 for the nibble v), with no
clamping, so nibble values above 5 yield a value above 1.0.  The C float
battery_bars * 0.2f is modelled as the exact rational. -/
theorem claim_C6 (b : List Nat) (r : DecodedReading)
    (h : decode_frame b = DecodeResult.success r) :
    r.battery_ok = ((b.getD 4 0 &&& 0x0F : Nat) : Rat) / 5 ∧
    (5 < b.getD 4 0 &&& 0x0F → 1 < r.battery_ok) := by
  obtain ⟨h0, hc, hk⟩ := decode_frame_success_facts b r h
  have he : r = frameReading b := by
    have h2 := decode_frame_success_eq b h0 hc hk
    rw [h] at h2
    exact DecodeResult.success.inj h2
  subst he
  constructor
  · show mkRat (Int.ofNat (b.getD 4 0 &&& 0x0F)) 5 = _
    rw [Rat.mkRat_eq_div]
    push_cast [Int.ofNat_eq_natCast]
    ring
  · intro hv
    show (1 : Rat) < mkRat (Int.ofNat (b.getD 4 0 &&& 0x0F)) 5
    rw [Rat.mkRat_eq_div]
    push_cast [Int.ofNat_eq_natCast]
    rw [lt_div_iff₀ (by norm_num : (0 : Rat) < 5), one_mul]
    exact_mod_cast hv

theorem claim_C6_witness :
    readingB6.battery_ok = ((frameB6.getD 4 0 &&& 0x0F : Nat) : Rat) / 5 ∧
    (5 < frameB6.getD 4 0 &&& 0x0F → 1 < readingB6.battery_ok) :=
  claim_C6 frameB6 readingB6 (by decide)

/-- C2: a correctly constructed frame with valid CRC and checksum decodes
to exactly the fields used to construct it: the 20-bit id from the low
nibble of byte 1 and bytes 2-3, the one-based channel from the high nibble
of byte 1, the battery level as nibble/5, and alarm set exactly when bit
0x02 of byte 5 is clear. -/
theorem claim_C2 (chanNibble idHigh idMid idLow battery alarmByte r1hi r1lo crc chk : Nat)
    (hc : chanNibble < 16) (hih : idHigh < 16) (him : idMid < 256) (hil : idLow < 256)
    (hbat : battery < 16) (hal : alarmByte < 256) (hr1 : r1hi < 256) (hr2 : r1lo < 256)
    (hcrc8 : crc < 256) (hchk8 : chk < 256)
    (hcrc : crc8 [0x55, (chanNibble <<< 4) ||| idHigh, idMid, idLow, battery, alarmByte,
        r1hi, r1lo] 0x31 0x00 = crc)
    (hchk : add_bytes [0x55, (chanNibble <<< 4) ||| idHigh, idMid, idLow, battery, alarmByte,
        r1hi, r1lo, crc] = chk) :
    fineoffset_wh55_decode (mkTx [0x55, (chanNibble <<< 4) ||| idHigh, idMid, idLow, battery,
        alarmByte, r1hi, r1lo, crc, chk])
      = DecodeResult.success
        { model := "Fineoffset-wh55"
          id := (idHigh <<< 16) ||| (idMid <<< 8) ||| idLow
          channel := chanNibble + 1
          battery_ok := mkRat (Int.ofNat battery) 5
          alarm := if alarmByte &&& 0x02 = 0 then 1 else 0
          unknown1 := (battery <<< 8) ||| alarmByte
          unknown2 := (r1hi <<< 8) ||| r1lo
          mic := "CRC" } := by
  have h1 : ((chanNibble <<< 4) ||| idHigh) &&& 0x0F = idHigh :=
    (nibble_pack_facts ⟨chanNibble, hc⟩ ⟨idHigh, hih⟩).1
  have h2 : ((chanNibble <<< 4) ||| idHigh) >>> 4 = chanNibble :=
    (nibble_pack_facts ⟨chanNibble, hc⟩ ⟨idHigh, hih⟩).2.1
  have h3 : (chanNibble <<< 4) ||| idHigh < 256 :=
    (nibble_pack_facts ⟨chanNibble, hc⟩ ⟨idHigh, hih⟩).2.2
  have h4 : battery &&& 0x0F = battery := and_fifteen_eq_self ⟨battery, hbat⟩
  have hlt : ∀ x ∈ [0x55, (chanNibble <<< 4) ||| idHigh, idMid, idLow, battery, alarmByte,
      r1hi, r1lo, crc, chk], x < 256 := by
    intro x hx
    simp only [List.mem_cons, List.not_mem_nil, or_false] at hx
    rcases hx with rfl | rfl | rfl | rfl | rfl | rfl | rfl | rfl | rfl | rfl
    · norm_num
    · exact h3
    · exact him
    · exact hil
    · omega
    · exact hal
    · exact hr1
    · exact hr2
    · exact hcrc8
    · exact hchk8
  rw [decode_mkTx_eq [0x55, (chanNibble <<< 4) ||| idHigh, idMid, idLow, battery, alarmByte,
        r1hi, r1lo, crc, chk] rfl hlt,
      decode_frame_success_eq [0x55, (chanNibble <<< 4) ||| idHigh, idMid, idLow, battery,
        alarmByte, r1hi, r1lo, crc, chk] rfl hcrc hchk]
  simp only [frameReading, List.getD_cons_zero, List.getD_cons_succ]
  rw [h1, h2, h4]

theorem claim_C2_witness :
    fineoffset_wh55_decode (mkTx [0x55, (0 <<< 4) ||| 1, 0x07, 0xa4, 5, 2, 0xdf, 0xbe,
        0xa4, 0x49])
      = DecodeResult.success
        { model := "Fineoffset-wh55", id := (1 <<< 16) ||| (0x07 <<< 8) ||| 0xa4,
          channel := 0 + 1, battery_ok := mkRat (Int.ofNat 5) 5,
          alarm := if 2 &&& 0x02 = 0 then 1 else 0,
          unknown1 := (5 <<< 8) ||| 2, unknown2 := (0xdf <<< 8) ||| 0xbe, mic := "CRC" } :=
  claim_C2 0 1 0x07 0xa4 5 2 0xdf 0xbe 0xa4 0x49 (by decide) (by decide) (by decide)
    (by decide) (by decide) (by decide) (by decide) (by decide) (by decide) (by decide)
    (by decide) (by decide)

/-- C7 counterexample: the sample frame decodes successfully, but flipping
bit 0 of byte 0 makes decode return DECODE_ABORT_EARLY (the family check
fires), not IntegrityCheckFailed (DECODE_FAIL_MIC), refuting the claim for
flips in byte 0. -/
theorem claim_C7_counterexample :
    fineoffset_wh55_decode (mkTx frameA) = DecodeResult.success readingA ∧
    fineoffset_wh55_decode (mkTx (frameA.set 0 (frameA.getD 0 0 ^^^ 2 ^ 0)))
      = DecodeResult.DECODE_ABORT_EARLY ∧
    DecodeResult.DECODE_ABORT_EARLY ≠ DecodeResult.DECODE_FAIL_MIC :=
  ⟨by decide, by decide, by decide⟩

/-- C7 amended: for every validly framed 10-byte sequence, flipping
exactly one bit in any of bytes 1..9 makes decode return DECODE_FAIL_MIC;
a flip in byte 0 instead trips the family check (DECODE_ABORT_EARLY). -/
theorem claim_C7 (b : List Nat) (i j : Nat) (r : DecodedReading)
    (hlen : b.length = 10) (hlt : ∀ x ∈ b, x < 256)
    (hi1 : 1 ≤ i) (hi9 : i ≤ 9) (hj : j < 8)
    (hsucc : fineoffset_wh55_decode (mkTx b) = DecodeResult.success r) :
    fineoffset_wh55_decode (mkTx (b.set i (b.getD i 0 ^^^ 2 ^ j)))
      = DecodeResult.DECODE_FAIL_MIC := by
  have hm0 : (2 : Nat) ^ j ≠ 0 := Nat.pos_iff_ne_zero.mp (Nat.two_pow_pos j)
  have hmlt : (2 : Nat) ^ j < 256 := by
    calc (2 : Nat) ^ j ≤ 2 ^ 7 := Nat.pow_le_pow_right (by norm_num) (by omega)
    _ < 256 := by norm_num
  have hvlt : b.getD i 0 ^^^ 2 ^ j < 256 := by
    have hb : b.getD i 0 < 256 := hlt _ (getD_mem b i (by omega))
    have hb8 : b.getD i 0 < 2 ^ 8 := by simpa using hb
    have hm8 : (2 : Nat) ^ j < 2 ^ 8 := by simpa using hmlt
    simpa using Nat.xor_lt_two_pow hb8 hm8
  have hlen2 : (b.set i (b.getD i 0 ^^^ 2 ^ j)).length = 10 := by
    rw [List.length_set]; exact hlen
  have hlt2 : ∀ x ∈ b.set i (b.getD i 0 ^^^ 2 ^ j), x < 256 := by
    intro x hx
    rcases List.mem_or_eq_of_mem_set hx with hx2 | rfl
    · exact hlt x hx2
    · exact hvlt
  rw [decode_mkTx_eq b hlen hlt] at hsucc
  obtain ⟨h0, hcrc, hchk⟩ := decode_frame_success_facts b r hsucc
  rw [decode_mkTx_eq _ hlen2 hlt2]
  have h0b : (b.set i (b.getD i 0 ^^^ 2 ^ j)).getD 0 0 = 0x55 := by
    rw [getD_set_ne b i 0 _ (by omega)]; exact h0
  refine decode_frame_mic _ h0b ?_
  have hcase : i < 8 ∨ i = 8 ∨ i = 9 := by omega
  rcases hcase with h8 | rfl | rfl
  · left
    rw [List.set_take]
    rw [show b.getD i 0 ^^^ 2 ^ j = (b.take 8).getD i 0 ^^^ 2 ^ j by
      rw [getD_take_of_lt b 8 i h8]]
    rw [crc8_flip (b.take 8) i 0x00 (2 ^ j) (by rw [List.length_take]; omega)]
    rw [getD_set_ne b i 8 _ (by omega), ← hcrc]
    have hlen8 : (b.take 8).length = 8 := by rw [List.length_take]; omega
    rw [hlen8]
    have hE : crcErr (8 - (i + 1)) (crcByte 0x31 0 (2 ^ j)) ≠ 0 := by
      have h := crcErr_single_bit_ne_zero (⟨8 - (i + 1), by omega⟩, ⟨j, hj⟩)
      simpa using h
    intro hcontra
    apply hE
    have h2 : crc8 (b.take 8) 0x31 0x00 ^^^ crcErr (8 - (i + 1)) (crcByte 0x31 0 (2 ^ j))
        = crc8 (b.take 8) 0x31 0x00 ^^^ 0 := by rw [Nat.xor_zero]; exact hcontra
    exact Nat.xor_right_inj.mp h2
  · left
    rw [show (b.set 8 (b.getD 8 0 ^^^ 2 ^ j)).take 8 = b.take 8 by
      rw [List.set_take]; exact List.set_eq_of_length_le (by rw [List.length_take]; omega)]
    rw [getD_set_self b 8 _ (by omega), hcrc]
    intro hcontra
    apply hm0
    have h2 : b.getD 8 0 ^^^ 0 = b.getD 8 0 ^^^ 2 ^ j := by rw [Nat.xor_zero]; exact hcontra
    exact (Nat.xor_right_inj.mp h2).symm
  · right
    rw [show (b.set 9 (b.getD 9 0 ^^^ 2 ^ j)).take 9 = b.take 9 by
      rw [List.set_take]; exact List.set_eq_of_length_le (by rw [List.length_take]; omega)]
    rw [getD_set_self b 9 _ (by omega), hchk]
    intro hcontra
    apply hm0
    have h2 : b.getD 9 0 ^^^ 0 = b.getD 9 0 ^^^ 2 ^ j := by rw [Nat.xor_zero]; exact hcontra
    exact (Nat.xor_right_inj.mp h2).symm

theorem claim_C7_witness :
    fineoffset_wh55_decode (mkTx (frameA.set 6 (frameA.getD 6 0 ^^^ 2 ^ 0)))
      = DecodeResult.DECODE_FAIL_MIC :=
  claim_C7 frameA 6 0 readingA (by decide) (by decide) (by decide) (by decide) (by decide)
    (by decide)

end WH55
